import Mathlib

/-!
Verification of the availability evaluation engine of `availability.py`
(rec-room-laser-tag-league).

The Python program resolves weekly recurring, timezone-scoped,
optionally date-bounded availability rules per player, aggregates them
per team under a quorum, and compresses a minute-by-minute simulation
into reportable intervals.

Shallow embedding conventions:
 - `Availability` mirrors the three-member `enum.Enum` with its `.value`
   numbering (No=1, Maybe=2, Yes=3) and its definition (iteration) order.
 - A Python `datetime` projected into a timezone is modelled by
   `LocalTime` (the fields the program actually reads: year, month, day,
   `isoweekday()`, hour, minute).  A `Timestamp` is modelled as the
   function from timezone name to that projection; the Python
   `Timestamp` class only memoizes this function.
 - Python tuple comparison on `(hour, minute)` pairs and
   `(year, month, day)` triples is lexicographic; it is modelled by
   `tupLtP` / `dateLtP`.
 - `PlayerAvailability.periods` is a Python `set`, modelled as a
   `Finset AvailablePeriod`; team player dictionaries and the league's
   team dictionary are modelled as association lists in insertion
   order; `collections.Counter` tallies are modelled as the sums they
   compute.
-/

inductive Availability where
  | No
  | Maybe
  | Yes
deriving DecidableEq, Repr, Fintype

def Availability.value : Availability → Nat
  | .No => 1
  | .Maybe => 2
  | .Yes => 3

/-- Iteration order of `Availability.__members__.values()`: definition order. -/
def availability_members : List Availability :=
  [Availability.No, Availability.Maybe, Availability.Yes]

/-- Lexicographic `<` on `(hour, minute)` pairs, as Python compares tuples. -/
abbrev tupLtP (a b : Nat × Nat) : Prop :=
  a.1 < b.1 ∨ (a.1 = b.1 ∧ a.2 < b.2)

/-- Lexicographic `≤` on `(hour, minute)` pairs. -/
abbrev tupLeP (a b : Nat × Nat) : Prop :=
  tupLtP a b ∨ a = b

/-- Lexicographic `<` on `(year, month, day)` triples, as Python compares tuples. -/
abbrev dateLtP (a b : Nat × Nat × Nat) : Prop :=
  a.1 < b.1 ∨ (a.1 = b.1 ∧ tupLtP a.2 b.2)

/-- Projection of one absolute instant into one timezone: the fields of the
Python `datetime` that `available_at` reads. -/
structure LocalTime where
  year : Nat
  month : Nat
  day : Nat
  isoweekday : Nat
  hour : Nat
  minute : Nat
deriving DecidableEq, Repr

/-- An absolute instant, given by its projection into every timezone
(the `Timestamp` class memoizes exactly this function). -/
abbrev Timestamp := String → LocalTime

/-- The `AvailablePeriod` namedtuple: one stored availability rule. -/
structure AvailablePeriod where
  time_zone : String
  day : Nat
  time_from : Nat × Nat
  time_to : Nat × Nat
  available : Availability
  date_from : Option (Nat × Nat × Nat)
  date_to : Option (Nat × Nat × Nat)
deriving DecidableEq, Repr

/-- Successor weekday (the `next_day` table): `1..6` step to the next day and
`Sun` (7) wraps to `Mon` (1). -/
def next_day (d : Nat) : Nat :=
  if d + 1 > 7 then 1 else d + 1

abbrev PlayerAvailability := Finset AvailablePeriod

/-- The body of the `for period in self.periods` loop of
`PlayerAvailability.available_at`: `true` when none of the `continue`
branches fire, i.e. the rule covers the instant. -/
def periodMatches (period : AvailablePeriod) (ts : Timestamp) : Bool :=
  let player_ts := ts period.time_zone
  (match period.date_from with
   | some d => decide (¬ dateLtP (player_ts.year, player_ts.month, player_ts.day) d)
   | none => true) &&
  (match period.date_to with
   | some d => decide (¬ dateLtP d (player_ts.year, player_ts.month, player_ts.day))
   | none => true) &&
  decide (player_ts.isoweekday = period.day) &&
  decide (¬ player_ts.hour < period.time_from.1) &&
  decide (¬ period.time_to.1 < player_ts.hour) &&
  decide (¬ (player_ts.hour = period.time_from.1 ∧ player_ts.minute < period.time_from.2)) &&
  decide (¬ (player_ts.hour = period.time_to.1 ∧ period.time_to.2 ≤ player_ts.minute))

/-- The `available` set that `PlayerAvailability.available_at` accumulates:
the tiers of the rules covering the instant. -/
def matched_tiers (p : PlayerAvailability) (ts : Timestamp) : Finset Availability :=
  (p.filter fun period => periodMatches period ts).image AvailablePeriod.available

/-- The final membership tests of `PlayerAvailability.available_at` applied to
the accumulated tier set: `No` wins, then `Yes`, then `Maybe`, else `No`. -/
def resolve_tiers (available : Finset Availability) : Availability :=
  if Availability.No ∈ available then Availability.No
  else if Availability.Yes ∈ available then Availability.Yes
  else if Availability.Maybe ∈ available then Availability.Maybe
  else Availability.No

def PlayerAvailability.available_at (p : PlayerAvailability) (ts : Timestamp) : Availability :=
  resolve_tiers (matched_tiers p ts)

/-- The `PlayerAvailability.add` method: an overnight span
(`time_to < time_from`, Python tuple order) is split at the end of the given
weekday and the start of the next one; otherwise the rule is stored as given. -/
def PlayerAvailability.add (p : PlayerAvailability) (time_zone : String) (day : Nat)
    (time_from time_to : Nat × Nat) (available : Availability)
    (date_from date_to : Option (Nat × Nat × Nat)) : PlayerAvailability :=
  if tupLtP time_to time_from then
    insert ⟨time_zone, day, time_from, (24, 0), available, date_from, date_to⟩
      (insert ⟨time_zone, next_day day, (0, 0), time_to, available, date_from, date_to⟩ p)
  else
    insert ⟨time_zone, day, time_from, time_to, available, date_from, date_to⟩ p

/-- Normalization applied by the loader (`LeagueAvailability.__init__`):
a to-time of `00:00` means end of day, `24:00`. -/
def normalize_time_to (t : Nat × Nat) : Nat × Nat :=
  if t = (0, 0) then (24, 0) else t

section SpecSide

/-- Modelled from the spec (§4.1): rule coverage stated with inclusive
date bounds, weekday equality and the half-open lexicographic
time-of-day window `[time_from, time_to)`. -/
def spec_rule_matches (period : AvailablePeriod) (ts : Timestamp) : Bool :=
  let player_ts := ts period.time_zone
  (match period.date_from with
   | some d => decide (¬ dateLtP (player_ts.year, player_ts.month, player_ts.day) d)
   | none => true) &&
  (match period.date_to with
   | some d => decide (¬ dateLtP d (player_ts.year, player_ts.month, player_ts.day))
   | none => true) &&
  decide (player_ts.isoweekday = period.day) &&
  decide (tupLeP period.time_from (player_ts.hour, player_ts.minute)) &&
  decide (tupLtP (player_ts.hour, player_ts.minute) period.time_to)

/-- Maximum of two tiers by `value`. -/
def Availability.max2 (a b : Availability) : Availability :=
  if a.value ≤ b.value then b else a

instance : Std.Commutative Availability.max2 := ⟨by decide⟩

instance : Std.Associative Availability.max2 := ⟨by decide⟩

/-- Maximum tier of a set of tiers, `No` when the set is empty. -/
def max_tier (s : Finset Availability) : Availability :=
  Finset.fold Availability.max2 Availability.No id s

/-- Modelled from the spec (§4.2): the resolved tier is the maximum tier
among all matching rules, `No` when no rule matches. -/
def spec_player_available_at (p : PlayerAvailability) (ts : Timestamp) : Availability :=
  max_tier (matched_tiers p ts)

end SpecSide

lemma bool_eq_of_iff {a b : Bool} (h : a = true ↔ b = true) : a = b := by
  cases a <;> cases b <;> simp_all

/-! ## Team level -/

abbrev TeamAvailability := List (String × PlayerAvailability)

/-- The cumulative `Counter` of `TeamAvailability.available_at`: every player
is counted at every tier up to their resolved one, the wildcard `"*"`
weighted `players_required` instead of 1. -/
def TeamAvailability.counts (team : TeamAvailability) (ts : Timestamp)
    (players_required : Nat) (a : Availability) : Nat :=
  (team.map (fun np =>
    if a.value ≤ (PlayerAvailability.available_at np.2 ts).value then
      (if np.1 = "*" then players_required else 1)
    else 0)).sum

/-- The `TeamAvailability.available_at` method: scan the tiers in definition
order and keep the last one whose cumulative count meets the quorum,
starting from `(0, No)`. -/
def TeamAvailability.available_at (team : TeamAvailability) (ts : Timestamp)
    (players_required : Nat) : Nat × Availability :=
  availability_members.foldl
    (fun result availability =>
      if players_required ≤ TeamAvailability.counts team ts players_required availability then
        (TeamAvailability.counts team ts players_required availability, availability)
      else result)
    (0, Availability.No)

/-- The non-cumulative `Counter` of `TeamAvailability.any_available_at`:
every player is counted at exactly their resolved tier (the Python code
keys the counter by `value`, which is injective on the enum), the wildcard
weighted `players_required`. -/
def TeamAvailability.exact_counts (team : TeamAvailability) (ts : Timestamp)
    (players_required : Nat) (a : Availability) : Nat :=
  (team.map (fun np =>
    if PlayerAvailability.available_at np.2 ts = a then
      (if np.1 = "*" then players_required else 1)
    else 0)).sum

/-- The `TeamAvailability.any_available_at` method. -/
def TeamAvailability.any_available_at (team : TeamAvailability) (ts : Timestamp)
    (players_required : Nat) : Nat × Availability :=
  if TeamAvailability.exact_counts team ts players_required Availability.Yes +
      TeamAvailability.exact_counts team ts players_required Availability.Maybe = 0 then
    (0, Availability.No)
  else if players_required ≤
        TeamAvailability.exact_counts team ts players_required Availability.Yes ∨
      TeamAvailability.exact_counts team ts players_required Availability.Maybe = 0 then
    (TeamAvailability.exact_counts team ts players_required Availability.Yes +
      TeamAvailability.exact_counts team ts players_required Availability.Maybe,
      Availability.Yes)
  else
    (TeamAvailability.exact_counts team ts players_required Availability.Yes +
      TeamAvailability.exact_counts team ts players_required Availability.Maybe,
      Availability.Maybe)

/-! ## League level -/

structure LeagueAvailability where
  teams : List (String × TeamAvailability)
  players : List (String × PlayerAvailability)

/-- The `LeagueAvailability.teams_available_at` method: the strict per-team
result for every team whose tier exceeds `No`. -/
def LeagueAvailability.teams_available_at (l : LeagueAvailability) (ts : Timestamp)
    (players_required : Nat) : List (String × (Nat × Availability)) :=
  l.teams.filterMap (fun nt =>
    if Availability.No.value < (TeamAvailability.available_at nt.2 ts players_required).2.value then
      some (nt.1, TeamAvailability.available_at nt.2 ts players_required)
    else none)

/-- The `LeagueAvailability.teams_any_available_at` method: the lenient
variant with the same tier filter. -/
def LeagueAvailability.teams_any_available_at (l : LeagueAvailability) (ts : Timestamp)
    (players_required : Nat) : List (String × (Nat × Availability)) :=
  l.teams.filterMap (fun nt =>
    if Availability.No.value <
        (TeamAvailability.any_available_at nt.2 ts players_required).2.value then
      some (nt.1, TeamAvailability.any_available_at nt.2 ts players_required)
    else none)

/-- The `LeagueAvailability.players_available_at` method: every cross-team
player whose resolved tier exceeds `No`, with that tier. -/
def LeagueAvailability.players_available_at (l : LeagueAvailability) (ts : Timestamp) :
    List (String × Availability) :=
  l.players.filterMap (fun np =>
    if Availability.No.value < (PlayerAvailability.available_at np.2 ts).value then
      some (np.1, PlayerAvailability.available_at np.2 ts)
    else none)

/-- The `__summarise_teams` helper: the signature of a team mapping, the set
of (team, tier) pairs ignoring counts. -/
def summarise_teams (teams : List (String × (Nat × Availability))) :
    Finset (String × Availability) :=
  (teams.map (fun e => (e.1, e.2.2))).toFinset

/-- One iteration of the team-mode simulation loop of `generate_output`:
re-evaluate the league at the minute `dt`; when the signature changes and the
previous mapping was non-empty, emit the previous mapping as a row. -/
def team_sim_step (l : LeagueAvailability) (players_required : Nat)
    (st : List (String × (Nat × Availability)) × List (List (String × (Nat × Availability))))
    (dt : Timestamp) :
    List (String × (Nat × Availability)) × List (List (String × (Nat × Availability))) :=
  if summarise_teams (LeagueAvailability.teams_available_at l dt players_required) ≠
      summarise_teams st.1 ∧ st.1 ≠ [] then
    (LeagueAvailability.teams_available_at l dt players_required, st.2 ++ [st.1])
  else
    (LeagueAvailability.teams_available_at l dt players_required, st.2)

/-- The team-mode simulation of `generate_output` over a list of one-minute
steps, returning the emitted rows (each row modelled by the team mapping it
reports); the final pending interval is flushed when non-empty. -/
def team_mode_rows (l : LeagueAvailability) (players_required : Nat)
    (minutes : List Timestamp) : List (List (String × (Nat × Availability))) :=
  let final := minutes.foldl (team_sim_step l players_required) ([], [])
  if final.1 ≠ [] then final.2 ++ [final.1] else final.2

/-! ## Concrete fixtures

A Monday-evening instant and a handful of small players and teams used as
concrete inputs for counterexamples and witnesses. -/

/-- Monday 19:00 (local in every timezone), 2018-06-04. -/
def ts0 : Timestamp := fun _ => ⟨2018, 6, 4, 1, 19, 0⟩

/-- Rule: Mon 18:00-21:00, Yes. -/
def perYes : AvailablePeriod := ⟨"UTC", 1, (18, 0), (21, 0), Availability.Yes, none, none⟩

/-- Rule: Mon 18:00-21:00, No. -/
def perNo : AvailablePeriod := ⟨"UTC", 1, (18, 0), (21, 0), Availability.No, none, none⟩

/-- Rule: Mon 18:00-21:00, Maybe. -/
def perMaybe : AvailablePeriod := ⟨"UTC", 1, (18, 0), (21, 0), Availability.Maybe, none, none⟩

def pYes : PlayerAvailability := {perYes}

def pMaybe : PlayerAvailability := {perMaybe}

/-- A player holding overlapping `No` and `Yes` rules for the same window. -/
def pNoYes : PlayerAvailability := {perYes, perNo}

/-- A team consisting solely of the wildcard entry, available `Yes`. -/
def team3 : TeamAvailability := [("*", pYes)]

/-- One named `Yes` player plus a `Yes` wildcard entry. -/
def team4 : TeamAvailability := [("A", pYes), ("*", pYes)]

/-- Two named `Yes` players, no `Maybe`. -/
def team5a : TeamAvailability := [("A", pYes), ("B", pYes)]

/-- Two named `Yes` players and one `Maybe` player. -/
def team5b : TeamAvailability := [("A", pYes), ("B", pYes), ("C", pMaybe)]

def league0 : LeagueAvailability := ⟨[("T", team4)], []⟩

/-- The player obtained by loading the overnight rule Fri 22:00-02:00, Yes. -/
def friPlayer : PlayerAvailability :=
  PlayerAvailability.add ∅ "Europe/London" 5 (22, 0) (2, 0) Availability.Yes none none

/-- Friday 23:30. -/
def tsFri2330 : Timestamp := fun _ => ⟨2018, 6, 8, 5, 23, 30⟩

/-- Saturday 01:00. -/
def tsSat0100 : Timestamp := fun _ => ⟨2018, 6, 9, 6, 1, 0⟩

/-- Saturday 02:00. -/
def tsSat0200 : Timestamp := fun _ => ⟨2018, 6, 9, 6, 2, 0⟩

/-- Friday 21:59. -/
def tsFri2159 : Timestamp := fun _ => ⟨2018, 6, 8, 5, 21, 59⟩

/-- Modelled from the spec: coverage check with the upper time bound dropped —
date bounds, weekday, and only the lower half-open time bound, i.e. the rule
matches up to but excluding the following midnight. -/
def matches_to_midnight (period : AvailablePeriod) (ts : Timestamp) : Bool :=
  let player_ts := ts period.time_zone
  (match period.date_from with
   | some d => decide (¬ dateLtP (player_ts.year, player_ts.month, player_ts.day) d)
   | none => true) &&
  (match period.date_to with
   | some d => decide (¬ dateLtP d (player_ts.year, player_ts.month, player_ts.day))
   | none => true) &&
  decide (player_ts.isoweekday = period.day) &&
  decide (tupLeP period.time_from (player_ts.hour, player_ts.minute))

/-! ## Claim theorems: player level -/

/-- C1 counterexample: a player with overlapping matching rules of tiers `No`
and `Yes` resolves to `No` in the code, while the maximum matching tier is
`Yes` — a matching `No` rule does suppress a matching `Yes` rule. -/
theorem c1_counterexample :
    PlayerAvailability.available_at pNoYes ts0 = Availability.No ∧
    spec_player_available_at pNoYes ts0 = Availability.Yes ∧
    PlayerAvailability.available_at pNoYes ts0 ≠ spec_player_available_at pNoYes ts0 := by
  decide

/-- C1 (amended): `PlayerAvailability.available_at` returns `No` whenever any
matching rule has tier `No`; otherwise it returns the maximum tier among the
matching rules (`No` when no rule matches); in particular overlapping `Maybe`
and `Yes` rules with no matching `No` rule resolve to `Yes`. -/
theorem c1_no_overrides_max (p : PlayerAvailability) (ts : Timestamp) :
    (Availability.No ∈ matched_tiers p ts →
      PlayerAvailability.available_at p ts = Availability.No) ∧
    (Availability.No ∉ matched_tiers p ts →
      PlayerAvailability.available_at p ts = spec_player_available_at p ts) ∧
    (Availability.No ∉ matched_tiers p ts ∧ Availability.Yes ∈ matched_tiers p ts →
      PlayerAvailability.available_at p ts = Availability.Yes) := by
  have key : ∀ M : Finset Availability,
      (Availability.No ∈ M → resolve_tiers M = Availability.No) ∧
      (Availability.No ∉ M → resolve_tiers M = max_tier M) ∧
      (Availability.No ∉ M ∧ Availability.Yes ∈ M → resolve_tiers M = Availability.Yes) := by
    decide
  exact key (matched_tiers p ts)

/-- C1 witness: a concrete player with a single matching `Yes` rule, on which
the code agrees with the maximum-tier specification. -/
theorem c1_witness :
    PlayerAvailability.available_at pYes ts0 = spec_player_available_at pYes ts0 :=
  (c1_no_overrides_max pYes ts0).2.1 (by decide)

/-- C7: a rule matches an instant exactly when the projected local date lies
within the inclusive date bounds, the weekday agrees, and `(hour, minute)` is
lexicographically at or after `time_from` and strictly before `time_to`. -/
theorem c7_rule_match_characterization (period : AvailablePeriod) (ts : Timestamp) :
    periodMatches period ts = spec_rule_matches period ts := by
  obtain ⟨tz, d, ⟨fh, fm⟩, ⟨th, tm⟩, av, df, dt⟩ := period
  apply bool_eq_of_iff
  cases df <;> cases dt <;>
    · simp only [periodMatches, spec_rule_matches, Bool.and_eq_true, decide_eq_true_eq,
        tupLtP, tupLeP, dateLtP, Prod.mk.injEq, true_and, and_true]
      omega

/-- C6: an overnight span is stored as exactly two rules, the tail of the
given weekday and the head of the following weekday (with Sunday wrapping to
Monday), and the loaded rule Fri 22:00-02:00 Yes matches Fri 23:30 and
Sat 01:00 but neither Sat 02:00 nor Fri 21:59. -/
theorem c6_overnight_split (tz : String) (d : Nat) (tf tt : Nat × Nat) (av : Availability)
    (df dt : Option (Nat × Nat × Nat)) (h : tupLtP tt tf) :
    PlayerAvailability.add ∅ tz d tf tt av df dt =
      {⟨tz, d, tf, (24, 0), av, df, dt⟩, ⟨tz, next_day d, (0, 0), tt, av, df, dt⟩} ∧
    (PlayerAvailability.add ∅ tz d tf tt av df dt).card = 2 ∧
    next_day 7 = 1 ∧
    PlayerAvailability.available_at friPlayer tsFri2330 = Availability.Yes ∧
    PlayerAvailability.available_at friPlayer tsSat0100 = Availability.Yes ∧
    PlayerAvailability.available_at friPlayer tsSat0200 = Availability.No ∧
    PlayerAvailability.available_at friPlayer tsFri2159 = Availability.No := by
  have hset : PlayerAvailability.add ∅ tz d tf tt av df dt =
      {⟨tz, d, tf, (24, 0), av, df, dt⟩, ⟨tz, next_day d, (0, 0), tt, av, df, dt⟩} := by
    unfold PlayerAvailability.add
    rw [if_pos h, insert_emptyc_eq]
  have hne : d ≠ next_day d := by unfold next_day; split <;> omega
  refine ⟨hset, ?_, by decide, by decide, by decide, by decide, by decide⟩
  rw [hset, Finset.card_insert_of_not_mem (by simp [AvailablePeriod.mk.injEq, hne]),
    Finset.card_singleton]

/-- C6 witness: the loaded overnight rule Fri 22:00-02:00 yields exactly two
stored rules. -/
theorem c6_witness : (PlayerAvailability.add ∅ "Europe/London" 5 (22, 0) (2, 0)
    Availability.Yes none none).card = 2 :=
  (c6_overnight_split "Europe/London" 5 (22, 0) (2, 0) Availability.Yes none none
    (by decide)).2.1

/-- C8: a given to-time of 00:00 is normalized to 24:00, such a rule is stored
unsplit, and the stored rule matches exactly the instants of its window up to
but excluding the following midnight — the upper time bound never excludes a
valid local time. -/
theorem c8_midnight_normalization (tz : String) (d : Nat) (tf : Nat × Nat)
    (av : Availability) (df dt : Option (Nat × Nat × Nat)) (ts : Timestamp)
    (hf : tf.1 ≤ 23) (hh : (ts tz).hour ≤ 23) :
    normalize_time_to (0, 0) = (24, 0) ∧
    PlayerAvailability.add ∅ tz d tf (normalize_time_to (0, 0)) av df dt =
      {⟨tz, d, tf, (24, 0), av, df, dt⟩} ∧
    periodMatches ⟨tz, d, tf, (24, 0), av, df, dt⟩ ts =
      matches_to_midnight ⟨tz, d, tf, (24, 0), av, df, dt⟩ ts := by
  obtain ⟨fh, fm⟩ := tf
  have hf' : fh ≤ 23 := hf
  refine ⟨rfl, ?_, ?_⟩
  · have hn : normalize_time_to (0, 0) = (24, 0) := rfl
    rw [hn]
    unfold PlayerAvailability.add
    rw [if_neg (by simp only [tupLtP]; omega), insert_emptyc_eq]
  · apply bool_eq_of_iff
    cases df <;> cases dt <;>
      · simp only [periodMatches, matches_to_midnight, Bool.and_eq_true, decide_eq_true_eq,
          tupLtP, tupLeP, dateLtP, Prod.mk.injEq, true_and, and_true]
        omega

/-- C8 witness: a concrete rule given with to-time 00:00 is stored as a single
rule ending at 24:00. -/
theorem c8_witness :
    PlayerAvailability.add ∅ "UTC" 1 (18, 0) (normalize_time_to (0, 0))
      Availability.Yes none none =
      {⟨"UTC", 1, (18, 0), (24, 0), Availability.Yes, none, none⟩} :=
  (c8_midnight_normalization "UTC" 1 (18, 0) Availability.Yes none none ts0
    (by decide) (by decide)).2.1

/-! ## Claim theorems: team level -/

/-- Unfolding of the scan loop of `TeamAvailability.available_at` over the
three tiers in definition order: the last tier meeting the quorum wins. -/
lemma available_at_cases (team : TeamAvailability) (ts : Timestamp) (q : Nat) :
    TeamAvailability.available_at team ts q =
      if q ≤ TeamAvailability.counts team ts q Availability.Yes then
        (TeamAvailability.counts team ts q Availability.Yes, Availability.Yes)
      else if q ≤ TeamAvailability.counts team ts q Availability.Maybe then
        (TeamAvailability.counts team ts q Availability.Maybe, Availability.Maybe)
      else if q ≤ TeamAvailability.counts team ts q Availability.No then
        (TeamAvailability.counts team ts q Availability.No, Availability.No)
      else (0, Availability.No) :=
  rfl

/-- Number of wildcard entries of the team qualifying at tier `a`. -/
def wildcard_weight (team : TeamAvailability) (ts : Timestamp) (a : Availability) : Nat :=
  List.countP (fun np => np.1 == "*" &&
    decide (a.value ≤ (PlayerAvailability.available_at np.2 ts).value)) team

/-- The cumulative tally splits into a quorum-independent part and
`q` units per qualifying wildcard entry. -/
lemma counts_decompose (team : TeamAvailability) (ts : Timestamp) (q : Nat) (a : Availability) :
    TeamAvailability.counts team ts q a =
      TeamAvailability.counts team ts 0 a + q * wildcard_weight team ts a := by
  induction team with
  | nil => rfl
  | cons np rest ih =>
    unfold TeamAvailability.counts wildcard_weight at ih ⊢
    simp only [List.map_cons, List.sum_cons]
    by_cases h1 : a.value ≤ (PlayerAvailability.available_at np.2 ts).value
    · by_cases h2 : np.1 = "*"
      · rw [List.countP_cons_of_pos _ _ (by simp [h1, h2]), if_pos h1, if_pos h1,
          if_pos h2, if_pos h2, Nat.mul_add, Nat.mul_one]
        omega
      · rw [List.countP_cons_of_neg _ _ (by simp [h2]), if_pos h1, if_pos h1,
          if_neg h2, if_neg h2]
        omega
    · rw [List.countP_cons_of_neg _ _ (by simp [h1]), if_neg h1, if_neg h1]
      omega

/-- Meeting the quorum is antitone in the quorum: a tier that meets a larger
quorum also meets a smaller one. -/
lemma counts_quorum_antitone (team : TeamAvailability) (ts : Timestamp) {n1 n2 : Nat}
    (h : n1 ≤ n2) (a : Availability)
    (h2 : n2 ≤ TeamAvailability.counts team ts n2 a) :
    n1 ≤ TeamAvailability.counts team ts n1 a := by
  rw [counts_decompose] at h2 ⊢
  rcases Nat.eq_zero_or_pos (wildcard_weight team ts a) with hw | hw
  · rw [hw] at h2 ⊢
    omega
  · have hw' : 1 ≤ wildcard_weight team ts a := hw
    have h3 := Nat.mul_le_mul (Nat.le_refl n1) hw'
    rw [Nat.mul_one] at h3
    omega

/-- Without a wildcard entry the cumulative tally does not depend on the
quorum at all. -/
lemma counts_no_wildcard (team : TeamAvailability) (ts : Timestamp)
    (hnw : ∀ e ∈ team, e.1 ≠ "*") (q q' : Nat) (a : Availability) :
    TeamAvailability.counts team ts q a = TeamAvailability.counts team ts q' a := by
  induction team with
  | nil => rfl
  | cons np rest ih =>
    have hnp : np.1 ≠ "*" := hnw np (List.mem_cons_self np rest)
    unfold TeamAvailability.counts at ih ⊢
    simp only [List.map_cons, List.sum_cons, if_neg hnp]
    rw [ih (fun e he => hnw e (List.mem_cons_of_mem np he))]

lemma value_pos (a : Availability) : 1 ≤ a.value := by cases a <;> decide

/-- C2: the strict team result is the pair of the highest-ranked tier whose
cumulative tally (players counted at every tier up to their own, wildcard
weighted by the quorum) meets the quorum together with that tally, and
`(0, No)` when no tier's tally meets the quorum. -/
theorem c2_strict_quorum_characterization (team : TeamAvailability) (ts : Timestamp) (q : Nat) :
    ((∀ a, TeamAvailability.counts team ts q a < q) ∧
      TeamAvailability.available_at team ts q = (0, Availability.No)) ∨
    (q ≤ TeamAvailability.counts team ts q (TeamAvailability.available_at team ts q).2 ∧
      (TeamAvailability.available_at team ts q).1 =
        TeamAvailability.counts team ts q (TeamAvailability.available_at team ts q).2 ∧
      ∀ a, (TeamAvailability.available_at team ts q).2.value < a.value →
        TeamAvailability.counts team ts q a < q) := by
  rw [available_at_cases]
  by_cases hY : q ≤ TeamAvailability.counts team ts q Availability.Yes
  · rw [if_pos hY]
    right
    refine ⟨hY, rfl, ?_⟩
    intro a ha
    cases a <;> simp [Availability.value] at ha
  · rw [if_neg hY]
    by_cases hM : q ≤ TeamAvailability.counts team ts q Availability.Maybe
    · rw [if_pos hM]
      right
      refine ⟨hM, rfl, ?_⟩
      intro a ha
      cases a <;> simp [Availability.value] at ha ⊢ <;> omega
    · rw [if_neg hM]
      by_cases hN : q ≤ TeamAvailability.counts team ts q Availability.No
      · rw [if_pos hN]
        right
        refine ⟨hN, rfl, ?_⟩
        intro a ha
        cases a <;> simp [Availability.value] at ha ⊢ <;> omega
      · rw [if_neg hN]
        left
        refine ⟨?_, rfl⟩
        intro a
        cases a <;> omega

/-- C2 witness: the concrete team of one named `Yes` player plus a `Yes`
wildcard meets quorum 4, so the returned count is the tally of the returned
tier and meets the quorum. -/
theorem c2_witness :
    (4 : Nat) ≤ TeamAvailability.counts team4 ts0 4
      (TeamAvailability.available_at team4 ts0 4).2 :=
  (c2_strict_quorum_characterization team4 ts0 4).elim
    (fun h => absurd (h.1 Availability.Yes) (by decide))
    (fun h => h.1)

/-- C3 counterexample: for the team consisting solely of a `Yes` wildcard
entry, the tier-`Yes` tally grows from 1 to 2 as the quorum grows from 1 to 2
— the per-tier tally is not non-increasing in the quorum. -/
theorem c3_counterexample :
    (1 : Nat) ≤ 2 ∧
    TeamAvailability.counts team3 ts0 1 Availability.Yes = 1 ∧
    TeamAvailability.counts team3 ts0 2 Availability.Yes = 2 ∧
    ¬ TeamAvailability.counts team3 ts0 2 Availability.Yes ≤
        TeamAvailability.counts team3 ts0 1 Availability.Yes := by
  decide

/-- C3 (amended): holding the instant fixed, the tier returned by
`TeamAvailability.available_at` is non-increasing as the quorum increases;
the per-tier tally is non-increasing (indeed constant) in the quorum only
for teams without a wildcard entry — with a wildcard it grows by one
wildcard unit per quorum unit. -/
theorem c3_quorum_monotonicity (team : TeamAvailability) (ts : Timestamp)
    (n1 n2 : Nat) (h : n1 ≤ n2) :
    ((∀ e ∈ team, e.1 ≠ "*") → ∀ a,
      TeamAvailability.counts team ts n2 a = TeamAvailability.counts team ts n1 a) ∧
    (TeamAvailability.available_at team ts n2).2.value ≤
      (TeamAvailability.available_at team ts n1).2.value := by
  constructor
  · intro hnw a
    exact counts_no_wildcard team ts hnw n2 n1 a
  · rw [available_at_cases, available_at_cases]
    by_cases hY2 : n2 ≤ TeamAvailability.counts team ts n2 Availability.Yes
    · have hY1 := counts_quorum_antitone team ts h Availability.Yes hY2
      rw [if_pos hY2, if_pos hY1]
    · rw [if_neg hY2]
      by_cases hM2 : n2 ≤ TeamAvailability.counts team ts n2 Availability.Maybe
      · have hM1 := counts_quorum_antitone team ts h Availability.Maybe hM2
        rw [if_pos hM2]
        by_cases hY1 : n1 ≤ TeamAvailability.counts team ts n1 Availability.Yes
        · rw [if_pos hY1]
          simp [Availability.value]
        · rw [if_neg hY1, if_pos hM1]
      · rw [if_neg hM2]
        have hval : ∀ r : Nat × Availability, 1 ≤ r.2.value := fun r => value_pos r.2
        split_ifs <;> simp only [Availability.value] <;> omega

/-- C3 witness: for a concrete wildcard-free team the tally is unchanged and
the returned tier does not increase as the quorum grows from 1 to 2. -/
theorem c3_witness :
    TeamAvailability.counts team5a ts0 2 Availability.Yes =
      TeamAvailability.counts team5a ts0 1 Availability.Yes ∧
    (TeamAvailability.available_at team5a ts0 2).2.value ≤
      (TeamAvailability.available_at team5a ts0 1).2.value :=
  ⟨(c3_quorum_monotonicity team5a ts0 1 2 (by decide)).1 (by decide) Availability.Yes,
    (c3_quorum_monotonicity team5a ts0 1 2 (by decide)).2⟩

/-- C4 counterexample: for the team of one named `Yes` player plus a `Yes`
wildcard queried at quorum 4, the wildcard contributes `players_required`
units, so 1 + 4 = 5 units are tallied at tier `Yes` — not the 1 + 3 = 4
units the claim asserts. -/
theorem c4_counterexample :
    TeamAvailability.counts team4 ts0 4 Availability.Yes = 5 ∧
    ¬ TeamAvailability.counts team4 ts0 4 Availability.Yes = 4 := by
  decide

/-- C4 (amended): a team of one named player resolved `Yes` plus a wildcard
entry resolved `Yes` meets quorum 4 at tier `Yes`, because the wildcard
counts as `players_required` = 4 identical units wherever attendance is
tallied, giving a tier-`Yes` tally of 1 + 4 = 5 and result `(5, Yes)`. -/
theorem c4_wildcard_weighting :
    TeamAvailability.counts team4 ts0 4 Availability.Yes = 1 + 4 ∧
    TeamAvailability.available_at team4 ts0 4 = (5, Availability.Yes) ∧
    4 ≤ (TeamAvailability.available_at team4 ts0 4).1 ∧
    (TeamAvailability.available_at team4 ts0 4).2 = Availability.Yes := by
  decide

/-- Modelled from the spec (§4.4): the weighted number of players whose own
resolved tier is exactly `a`, written as a filtered weighted count. -/
def spec_exact_count (team : TeamAvailability) (ts : Timestamp)
    (players_required : Nat) (a : Availability) : Nat :=
  ((team.filter (fun np => PlayerAvailability.available_at np.2 ts == a)).map
    (fun np => if np.1 = "*" then players_required else 1)).sum

/-- Modelled from the spec (§4.4): the lenient decision rule written over the
spec-side counts — `(0, No)` when nobody is `Yes` or `Maybe`; `(total, Yes)`
when the confirmed players alone meet the quorum or there are no `Maybe`
players; `(total, Maybe)` otherwise. -/
def spec_any_available_at (team : TeamAvailability) (ts : Timestamp)
    (players_required : Nat) : Nat × Availability :=
  if spec_exact_count team ts players_required Availability.Yes +
      spec_exact_count team ts players_required Availability.Maybe = 0 then
    (0, Availability.No)
  else if players_required ≤ spec_exact_count team ts players_required Availability.Yes ∨
      spec_exact_count team ts players_required Availability.Maybe = 0 then
    (spec_exact_count team ts players_required Availability.Yes +
      spec_exact_count team ts players_required Availability.Maybe, Availability.Yes)
  else
    (spec_exact_count team ts players_required Availability.Yes +
      spec_exact_count team ts players_required Availability.Maybe, Availability.Maybe)

/-- The loop tally of `any_available_at` agrees with the spec-side filtered
weighted count. -/
lemma exact_counts_eq_spec (team : TeamAvailability) (ts : Timestamp)
    (q : Nat) (a : Availability) :
    TeamAvailability.exact_counts team ts q a = spec_exact_count team ts q a := by
  induction team with
  | nil => rfl
  | cons np rest ih =>
    unfold TeamAvailability.exact_counts spec_exact_count at ih ⊢
    by_cases h : PlayerAvailability.available_at np.2 ts = a
    · rw [List.filter_cons_of_pos (by simp [h]), List.map_cons, List.sum_cons,
        List.map_cons, List.sum_cons, if_pos h, ih]
    · rw [List.filter_cons_of_neg (by simp [h]), List.map_cons, List.sum_cons,
        if_neg h, ih]
      omega

/-- C5: the lenient team result equals the spec-side rule over per-tier
weighted counts (wildcard weighted by the quorum, no cumulative attribution),
and at the boundary a team of 2 `Yes` and 0 `Maybe` at quorum 4 yields
`(2, Yes)` while 2 `Yes` and 1 `Maybe` at quorum 4 yields `(3, Maybe)`. -/
theorem c5_lenient_mode (team : TeamAvailability) (ts : Timestamp) (q : Nat) :
    TeamAvailability.any_available_at team ts q = spec_any_available_at team ts q ∧
    TeamAvailability.any_available_at team5a ts0 4 = (2, Availability.Yes) ∧
    TeamAvailability.any_available_at team5b ts0 4 = (3, Availability.Maybe) := by
  refine ⟨?_, by decide, by decide⟩
  unfold TeamAvailability.any_available_at spec_any_available_at
  rw [exact_counts_eq_spec, exact_counts_eq_spec]

/-! ## Claim theorems: league level and simulation -/

/-- Membership in the strict league query: a pair is listed exactly when it
is a team of the league whose strict result it carries and whose tier
strictly exceeds `No`. -/
lemma mem_teams_available_at (l : LeagueAvailability) (ts : Timestamp) (q : Nat)
    (x : String × (Nat × Availability)) :
    x ∈ LeagueAvailability.teams_available_at l ts q ↔
      ∃ t, (x.1, t) ∈ l.teams ∧ x.2 = TeamAvailability.available_at t ts q ∧
        Availability.No.value < x.2.2.value := by
  unfold LeagueAvailability.teams_available_at
  rw [List.mem_filterMap]
  constructor
  · rintro ⟨nt, hnt, hf⟩
    by_cases hc : Availability.No.value < (TeamAvailability.available_at nt.2 ts q).2.value
    · rw [if_pos hc] at hf
      obtain rfl : (nt.1, TeamAvailability.available_at nt.2 ts q) = x := Option.some.inj hf
      exact ⟨nt.2, hnt, rfl, hc⟩
    · rw [if_neg hc] at hf
      cases hf
  · rintro ⟨t, ht, hx, hv⟩
    refine ⟨(x.1, t), ht, ?_⟩
    show (if Availability.No.value < (TeamAvailability.available_at t ts q).2.value then
        some (x.1, TeamAvailability.available_at t ts q) else none) = some x
    rw [← hx, if_pos hv]

lemma mem_teams_any_available_at (l : LeagueAvailability) (ts : Timestamp) (q : Nat)
    (x : String × (Nat × Availability)) :
    x ∈ LeagueAvailability.teams_any_available_at l ts q ↔
      ∃ t, (x.1, t) ∈ l.teams ∧ x.2 = TeamAvailability.any_available_at t ts q ∧
        Availability.No.value < x.2.2.value := by
  unfold LeagueAvailability.teams_any_available_at
  rw [List.mem_filterMap]
  constructor
  · rintro ⟨nt, hnt, hf⟩
    by_cases hc : Availability.No.value < (TeamAvailability.any_available_at nt.2 ts q).2.value
    · rw [if_pos hc] at hf
      obtain rfl : (nt.1, TeamAvailability.any_available_at nt.2 ts q) = x := Option.some.inj hf
      exact ⟨nt.2, hnt, rfl, hc⟩
    · rw [if_neg hc] at hf
      cases hf
  · rintro ⟨t, ht, hx, hv⟩
    refine ⟨(x.1, t), ht, ?_⟩
    show (if Availability.No.value < (TeamAvailability.any_available_at t ts q).2.value then
        some (x.1, TeamAvailability.any_available_at t ts q) else none) = some x
    rw [← hx, if_pos hv]

lemma mem_players_available_at (l : LeagueAvailability) (ts : Timestamp)
    (x : String × Availability) :
    x ∈ LeagueAvailability.players_available_at l ts ↔
      ∃ p, (x.1, p) ∈ l.players ∧ x.2 = PlayerAvailability.available_at p ts ∧
        Availability.No.value < x.2.value := by
  unfold LeagueAvailability.players_available_at
  rw [List.mem_filterMap]
  constructor
  · rintro ⟨np, hnp, hf⟩
    by_cases hc : Availability.No.value < (PlayerAvailability.available_at np.2 ts).value
    · rw [if_pos hc] at hf
      obtain rfl : (np.1, PlayerAvailability.available_at np.2 ts) = x := Option.some.inj hf
      exact ⟨np.2, hnp, rfl, hc⟩
    · rw [if_neg hc] at hf
      cases hf
  · rintro ⟨p, hp, hx, hv⟩
    refine ⟨(x.1, p), hp, ?_⟩
    show (if Availability.No.value < (PlayerAvailability.available_at p ts).value then
        some (x.1, PlayerAvailability.available_at p ts) else none) = some x
    rw [← hx, if_pos hv]

/-- Every entry of a team mapping produced by the strict league query has a
tier strictly above `No`. -/
def RowOk (r : List (String × (Nat × Availability))) : Prop :=
  ∀ e ∈ r, Availability.No.value < e.2.2.value

lemma teams_available_at_rowOk (l : LeagueAvailability) (ts : Timestamp) (q : Nat) :
    RowOk (LeagueAvailability.teams_available_at l ts q) := by
  intro e he
  obtain ⟨t, ht, hx, hv⟩ := (mem_teams_available_at l ts q e).mp he
  exact hv

/-- Invariant of the team-mode simulation loop: the pending mapping always
comes from the strict league query and every emitted row is a non-empty
mapping of tiers above `No`. -/
lemma team_sim_foldl_invariant (l : LeagueAvailability) (q : Nat)
    (minutes : List Timestamp) :
    ∀ st : List (String × (Nat × Availability)) × List (List (String × (Nat × Availability))),
      RowOk st.1 → (∀ r ∈ st.2, r ≠ [] ∧ RowOk r) →
      RowOk (minutes.foldl (team_sim_step l q) st).1 ∧
        ∀ r ∈ (minutes.foldl (team_sim_step l q) st).2, r ≠ [] ∧ RowOk r := by
  induction minutes with
  | nil =>
    intro st h1 h2
    exact ⟨h1, h2⟩
  | cons m ms ih =>
    intro st h1 h2
    rw [List.foldl_cons]
    apply ih
    · unfold team_sim_step
      split_ifs <;> exact teams_available_at_rowOk l m q
    · unfold team_sim_step
      split_ifs with hc
      · intro r hr
        rcases List.mem_append.mp hr with h | h
        · exact h2 r h
        · rw [List.mem_singleton] at h
          subst h
          exact ⟨hc.2, h1⟩
      · exact h2

lemma team_mode_rows_sound (l : LeagueAvailability) (q : Nat) (minutes : List Timestamp) :
    ∀ r ∈ team_mode_rows l q minutes, r ≠ [] ∧ RowOk r := by
  intro r hr
  have hinv := team_sim_foldl_invariant l q minutes ([], [])
    (by intro e he; cases he) (by intro r hr; cases hr)
  simp only [team_mode_rows] at hr
  split_ifs at hr with hne
  · rcases List.mem_append.mp hr with h | h
    · exact hinv.2 r h
    · rw [List.mem_singleton] at h
      subst h
      exact ⟨hne, hinv.1⟩
  · exact hinv.2 r hr

lemma value_gt_no_iff (a : Availability) : Availability.No.value < a.value ↔ a ≠ Availability.No := by
  cases a <;> decide

/-- C9: the three league queries list a team or player exactly when its
resolved tier strictly exceeds `No`, and every row emitted by the
minute-by-minute team simulation is a non-empty mapping whose signature
contains no tier-`No` entry — a stretch of total unavailability is never
emitted as a row. -/
theorem c9_no_tier_never_listed (l : LeagueAvailability) (ts : Timestamp) (q : Nat)
    (minutes : List Timestamp) :
    (∀ x, x ∈ LeagueAvailability.teams_available_at l ts q ↔
      ∃ t, (x.1, t) ∈ l.teams ∧ x.2 = TeamAvailability.available_at t ts q ∧
        Availability.No.value < x.2.2.value) ∧
    (∀ x, x ∈ LeagueAvailability.teams_any_available_at l ts q ↔
      ∃ t, (x.1, t) ∈ l.teams ∧ x.2 = TeamAvailability.any_available_at t ts q ∧
        Availability.No.value < x.2.2.value) ∧
    (∀ x, x ∈ LeagueAvailability.players_available_at l ts ↔
      ∃ p, (x.1, p) ∈ l.players ∧ x.2 = PlayerAvailability.available_at p ts ∧
        Availability.No.value < x.2.value) ∧
    (∀ r ∈ team_mode_rows l q minutes, r ≠ [] ∧
      ∀ s ∈ summarise_teams r, s.2 ≠ Availability.No) := by
  refine ⟨mem_teams_available_at l ts q, mem_teams_any_available_at l ts q,
    mem_players_available_at l ts, ?_⟩
  intro r hr
  obtain ⟨hne, hok⟩ := team_mode_rows_sound l q minutes r hr
  refine ⟨hne, ?_⟩
  intro s hs
  unfold summarise_teams at hs
  rw [List.mem_toFinset, List.mem_map] at hs
  obtain ⟨e, he, rfl⟩ := hs
  exact (value_gt_no_iff e.2.2).mp (hok e he)

/-- C9 witness: in a concrete league the team with a `Yes` result is listed
by the strict query. -/
theorem c9_witness :
    ("T", ((5 : Nat), Availability.Yes)) ∈ LeagueAvailability.teams_available_at league0 ts0 4 :=
  ((c9_no_tier_never_listed league0 ts0 4 []).1 ("T", (5, Availability.Yes))).mpr
    ⟨team4, by decide, by decide, by decide⟩

/-- C10 (implicit): every pair listed by the strict league query at a quorum
of at least one carries a count that meets that quorum. -/
theorem c10_listed_count_meets_quorum (l : LeagueAvailability) (ts : Timestamp) (q : Nat)
    (hq : 1 ≤ q) (x : String × (Nat × Availability))
    (hx : x ∈ LeagueAvailability.teams_available_at l ts q) :
    q ≤ x.2.1 := by
  obtain ⟨t, ht, hres, hv⟩ := (mem_teams_available_at l ts q x).mp hx
  rw [hres] at hv ⊢
  rw [available_at_cases] at hv ⊢
  by_cases hY : q ≤ TeamAvailability.counts t ts q Availability.Yes
  · rw [if_pos hY]
    exact hY
  · rw [if_neg hY] at hv ⊢
    by_cases hM : q ≤ TeamAvailability.counts t ts q Availability.Maybe
    · rw [if_pos hM]
      exact hM
    · rw [if_neg hM] at hv ⊢
      split_ifs at hv <;> simp [Availability.value] at hv

/-- C10 witness: in the concrete league the listed count 5 meets quorum 4. -/
theorem c10_witness : (4 : Nat) ≤ (("T", ((5 : Nat), Availability.Yes)) :
    String × (Nat × Availability)).2.1 :=
  c10_listed_count_meets_quorum league0 ts0 4 (by decide)
    ("T", (5, Availability.Yes)) (by decide)

